import Mathlib

/-!
Verification of the ProTools asynchronous multi-provider review orchestrator.

This file is a shallow embedding of the review subsystem:
  * `src/types/review.ts`            -- the Zod schemas and data model,
  * `src/tools/review/result-processor.ts` -- validation, repair and merging,
  * `src/tools/review/task-store.ts` (re-exported through
    `src/tools/review/index.ts`)     -- the in-memory task store, status
    transitions, cleanup and snapshot projection,
  * `src/tools/code-review.ts`       -- the older private copies of the
    validator and the merger.

Conventions of the embedding:
  * JavaScript objects used as records with string keys (`results`, `errors`,
    the task store `Map`) are modelled as insertion-ordered association lists
    `List (String × _)`; `Object.keys` is `List.map Prod.fst`, which matches
    JS insertion order.
  * JS numbers are modelled as `ℚ` (scores, line numbers) or `ℤ`
    (timestamps, counters).  `Math.round` is `jsRound`, i.e. `⌊x + 1/2⌋`,
    which agrees with JS `Math.round` on every finite value.
  * Loosely typed values arriving from an LLM are modelled by `RVal`
    (a string, a number, or any other JSON value carrying only its JS
    truthiness).  An absent field is `Option.none`.
  * `Array.prototype.sort` is required by the ECMAScript standard to be
    stable; it is modelled by Mathlib's `List.insertionSort`, which is the
    stable sort for the same boolean comparison.
  * Impure reads of the clock (`Date.now()`, `new Date().toISOString()`) are
    made explicit parameters (`now : ℤ`, `nowIso : String`).
-/

/-- JS string rendering of a number.  JS prints integral doubles in decimal,
which this matches exactly; non-integral rationals (which no claim inspects)
are rendered as `num/den`. -/
def jsNumToString (q : ℚ) : String :=
  if q.den = 1 then toString q.num else toString q.num ++ "/" ++ toString q.den

/-- JS `Math.round`: round half toward positive infinity. -/
def jsRound (q : ℚ) : ℤ := ⌊q + 1/2⌋

/-- A loosely typed JS value as delivered by `JSON.parse` of an LLM response:
a string, a number, or any other value (boolean, null, array, object)
remembering only whether it is JS-truthy. -/
inductive RVal : Type where
  | str (s : String)
  | num (q : ℚ)
  | other (truthy : Bool)
deriving DecidableEq, Repr

/-- JS truthiness of an `RVal` ("" and 0 are falsy). -/
def RVal.truthy : RVal → Bool
  | .str s => !s.isEmpty
  | .num q => q != 0
  | .other b => b

/-- JS `x || dflt` on a possibly absent value (`undefined` is falsy). -/
def jsOr (v : Option RVal) (dflt : RVal) : RVal :=
  match v with
  | some x => if x.truthy then x else dflt
  | none => dflt

/-- JS property-key coercion (`ToPropertyKey`) of a possibly absent value,
as used by the `in` operator.  Only the string and number cases can ever
match one of the fixed stat keys; every other value stringifies to some
string that is not a severity or category name. -/
def jsPropKey : Option RVal → String
  | some (.str s) => s
  | some (.num q) => jsNumToString q
  | some (.other _) => "[object]"
  | none => "undefined"

/-! ### Data model (`src/types/review.ts`)

`severity` and `category` are kept as `String`, exactly as in the TypeScript
union types; the Zod schemas constrain their values on parsing. -/

/-- The four legal severities of `SeveritySchema`. -/
def severityValues : List String := ["critical", "major", "minor", "info"]

/-- The four legal categories of `IssueCategorySchema` (no "all"). -/
def categoryValues : List String := ["security", "performance", "quality", "maintainability"]

/-- A validated review issue (`ReviewIssueSchema`). -/
structure ReviewIssue where
  file : String
  line_start : Option ℚ
  line_end : Option ℚ
  severity : String
  category : String
  title : String
  description : String
  suggestion : Option String
  code_snippet : Option String
deriving DecidableEq, Repr

/-- Review statistics.  `by_severity` / `by_category` are JS objects with a
fixed set of keys, modelled as insertion-ordered association lists so that
the key sets themselves are observable. -/
structure ReviewStats where
  total_issues : Nat
  by_severity : List (String × Nat)
  by_category : List (String × Nat)
deriving DecidableEq, Repr

/-- Result metadata (`ReviewMetaSchema`). -/
structure ReviewMeta where
  files_reviewed : ℤ
  provider : String
  model : String
  tokens_used : Option ℤ
  duration_ms : ℤ
deriving DecidableEq, Repr

/-- A canonical review record (`ReviewResult`). -/
structure ReviewResult where
  overall_score : ℚ
  summary : String
  issues : List ReviewIssue
  highlights : List String
  stats : ReviewStats
  meta : ReviewMeta
deriving DecidableEq, Repr

/-- A raw, unvalidated issue object from the LLM: every schema field may be
absent or of the wrong type.  A raw array entry that is not an object at all
behaves, for every access and for the repair spread, exactly like the record
with all fields absent, so it is covered by this model as well. -/
structure RawIssue where
  file : Option RVal := none
  line_start : Option RVal := none
  line_end : Option RVal := none
  severity : Option RVal := none
  category : Option RVal := none
  title : Option RVal := none
  description : Option RVal := none
  suggestion : Option RVal := none
  code_snippet : Option RVal := none
deriving DecidableEq, Repr

/-- The raw parsed LLM response handed to `validateAndEnrichResult`.
`issues`/`highlights` are `none` when the field is absent or not an array
(the `Array.isArray` guards).  `overall_score` models the result of the JS
`Number(...)` coercion: `none` is `NaN` (missing or non-numeric). -/
structure RawParsed where
  issues : Option (List RawIssue) := none
  overall_score : Option ℚ := none
  summary : Option RVal := none
  highlights : Option (List RVal) := none
deriving DecidableEq, Repr

/-- Result metadata argument of the validators (`ResultMeta`). -/
structure ResultMeta where
  filesReviewed : ℤ
  provider : String
  model : String
  tokensUsed : Option ℤ
  durationMs : ℤ
deriving DecidableEq, Repr

/-! ### Zod strict validation (`ReviewIssueSchema.safeParse`) -/

/-- Parse a required `z.string()` field. -/
def parseReqString : Option RVal → Option String
  | some (.str s) => some s
  | _ => none

/-- Parse an optional `z.number()` field (absent is fine, wrong type fails). -/
def parseOptNumber : Option RVal → Option (Option ℚ)
  | none => some none
  | some (.num q) => some (some q)
  | _ => none

/-- Parse an optional `z.string()` field. -/
def parseOptString : Option RVal → Option (Option String)
  | none => some none
  | some (.str s) => some (some s)
  | _ => none

/-- Parse a required `z.enum(vs)` field. -/
def parseEnum (vs : List String) : Option RVal → Option String
  | some (.str s) => if s ∈ vs then some s else none
  | _ => none

/-- Zod strict parse `ReviewIssueSchema.safeParse`: succeeds iff every field conforms; unknown
keys are stripped by Zod and are invisible in this model. -/
def safeParseIssue (r : RawIssue) : Option ReviewIssue := do
  let file ← parseReqString r.file
  let line_start ← parseOptNumber r.line_start
  let line_end ← parseOptNumber r.line_end
  let severity ← parseEnum severityValues r.severity
  let category ← parseEnum categoryValues r.category
  let title ← parseReqString r.title
  let description ← parseReqString r.description
  let suggestion ← parseOptString r.suggestion
  let code_snippet ← parseOptString r.code_snippet
  pure { file, line_start, line_end, severity, category, title, description,
         suggestion, code_snippet }

/-! ### Result validator (`result-processor.ts` : `validateAndEnrichResult`) -/

/-- The lenient repair applied to an issue that failed strict validation
(`result-processor.ts` lines 35-47): an unknown severity becomes "info", an
unknown category becomes "quality", falsy `file`/`title`/`description`
become "unknown" / "未知问题" / "". -/
def fixIssue (r : RawIssue) : RawIssue :=
  { r with
    severity := some (match r.severity with
      | some (.str s) => if s ∈ severityValues then RVal.str s else RVal.str "info"
      | _ => RVal.str "info")
    category := some (match r.category with
      | some (.str s) => if s ∈ categoryValues then RVal.str s else RVal.str "quality"
      | _ => RVal.str "quality")
    file := some (jsOr r.file (RVal.str "unknown"))
    title := some (jsOr r.title (RVal.str "未知问题"))
    description := some (jsOr r.description (RVal.str "")) }

/-- Per-issue validation: strict parse, then one retry on the repaired issue,
then drop (`result-processor.ts` lines 29-53). -/
def validIssue (r : RawIssue) : Option ReviewIssue :=
  match safeParseIssue r with
  | some i => some i
  | none => safeParseIssue (fixIssue r)

/-- The loop collecting `validIssues`. -/
def validIssues (raws : List RawIssue) : List ReviewIssue :=
  raws.filterMap validIssue

/-- Increment `l[k]` when `k` is a key of the object `l`
(the `if (k in stats) stats[k]++` pattern). -/
def bumpKey (l : List (String × Nat)) (k : String) : List (String × Nat) :=
  if l.any (fun p => p.1 = k) then
    l.map (fun p => if p.1 = k then (p.1, p.2 + 1) else p)
  else l

/-- The stats pass `calculateStats` of `result-processor.ts` (category keys without "all"). -/
def calculateStats (issues : List ReviewIssue) : ReviewStats :=
  issues.foldl
    (fun st i =>
      { st with
        by_severity := bumpKey st.by_severity i.severity
        by_category := bumpKey st.by_category i.category })
    { total_issues := issues.length
      by_severity := [("critical", 0), ("major", 0), ("minor", 0), ("info", 0)]
      by_category := [("security", 0), ("performance", 0), ("quality", 0),
                      ("maintainability", 0)] }

/-- The rank `severityOrder[sev] ?? 4`. -/
def sevRank (s : String) : Nat :=
  if s = "critical" then 0 else if s = "major" then 1
  else if s = "minor" then 2 else if s = "info" then 3 else 4

/-- The sorter `sortIssuesBySeverity`: stable sort by severity rank. -/
def sortIssuesBySeverity (issues : List ReviewIssue) : List ReviewIssue :=
  issues.insertionSort (fun a b => sevRank a.severity ≤ sevRank b.severity)

/-- JS `String(v || dflt)` for the summary field. -/
def jsStringOf : RVal → String
  | .str s => s
  | .num q => jsNumToString q
  | .other _ => "[object]"

/-- The exported `validateAndEnrichResult` of `result-processor.ts` (lines 22-84). -/
def validateAndEnrichResult (parsed : RawParsed) (meta : ResultMeta) : ReviewResult :=
  let rawIssues := match parsed.issues with
    | some l => l
    | none => []
  let vIssues := validIssues rawIssues
  let stats := calculateStats vIssues
  let sortedIssues := sortIssuesBySeverity vIssues
  let overallScore : ℚ := match parsed.overall_score with
    | some q => if q < 1 ∨ q > 10 then 5 else q
    | none => 5
  { overall_score := overallScore
    summary := jsStringOf (jsOr parsed.summary (RVal.str "审查完成"))
    issues := sortedIssues
    highlights := match parsed.highlights with
      | some l => l.filterMap (fun h => match h with
          | .str s => some s
          | _ => none)
      | none => []
    stats := stats
    meta := { files_reviewed := meta.filesReviewed
              provider := meta.provider
              model := meta.model
              tokens_used := meta.tokensUsed
              duration_ms := meta.durationMs } }

/-! ### Result merger (`result-processor.ts` : `combineReviewResults`) -/

/-- The dedup key \x60${file}:${line_start ?? 0}:${title}\x60 (a plain string,
so distinct (file, line, title) triples may collide). -/
def issueKey (i : ReviewIssue) : String :=
  i.file ++ ":" ++ jsNumToString (i.line_start.getD 0) ++ ":" ++ i.title

/-- JS object / Map get: first entry with the key. -/
def recGet {α : Type} (l : List (String × α)) (k : String) : Option α :=
  (l.find? (fun p => p.1 = k)).map Prod.snd

/-- One step of the dedup loop: insert the issue unless its key is present. -/
def insertIssue (m : List (String × ReviewIssue)) (i : ReviewIssue) :
    List (String × ReviewIssue) :=
  if (recGet m (issueKey i)).isSome then m else m ++ [(issueKey i, i)]

/-- The full dedup loop over all results, in reviewer order then issue order. -/
def dedupIssueMap (results : List ReviewResult) : List (String × ReviewIssue) :=
  results.foldl (fun m r => r.issues.foldl insertIssue m) []

/-- Insertion-ordered string set union (JS `Set` + `Array.from`). -/
def addHighlights (acc : List String) (hs : List String) : List String :=
  hs.foldl (fun a h => if h ∈ a then a else a ++ [h]) acc

/-- The merger `combineReviewResults` of `result-processor.ts` (lines 89-143).
`now` makes the `Date.now()` read explicit. -/
def combineReviewResults (results : List ReviewResult) (filesCount : ℤ)
    (startTime now : ℤ) : ReviewResult :=
  let avgScore : ℤ :=
    jsRound ((results.foldl (fun sum r => sum + r.overall_score) 0) / results.length)
  let combinedIssues := (dedupIssueMap results).map Prod.snd
  let stats := calculateStats combinedIssues
  let sortedIssues := sortIssuesBySeverity combinedIssues
  let highlights := results.foldl (fun a r => addHighlights a r.highlights) []
  let providerNames := String.intercalate " + " (results.map (fun r => r.meta.provider))
  let summaryParts := results.map (fun r => "[" ++ r.meta.provider ++ "] " ++ r.summary)
  { overall_score := (avgScore : ℚ)
    summary := "综合 " ++ providerNames ++ " 审查结果。\n\n" ++
      String.intercalate "\n\n" summaryParts
    issues := sortedIssues
    highlights := highlights
    stats := stats
    meta := { files_reviewed := filesCount
              provider := providerNames
              model := String.intercalate " / " (results.map (fun r => r.meta.model))
              tokens_used := some (results.foldl
                (fun sum r => sum + r.meta.tokens_used.getD 0) 0)
              duration_ms := now - startTime } }

/-! ### The private validator of `code-review.ts` (lines 507-561)

It casts the raw issues to `ReviewIssue[]` without any validation, so its
result carries raw issues; its category stats object has an extra "all" key;
its score check is JS truthiness (`Number(x) || 5`), not a range check. -/

/-- A review record as produced by the private `validateAndEnrichResult` of
`code-review.ts`: the issues are the unvalidated raw objects. -/
structure CrReviewResult where
  overall_score : ℚ
  summary : String
  issues : List RawIssue
  highlights : List RVal
  stats : ReviewStats
  meta : ReviewMeta
deriving DecidableEq, Repr

/-- The rank `severityOrder[a.severity] ?? 4` on a raw (uncast) severity value. -/
def crRank (v : Option RVal) : Nat :=
  match v with
  | some (.str s) => sevRank s
  | _ => 4

/-- The stats loop of the private validator: property-key membership tests on
raw values, with "all" present among the category keys. -/
def crCalculateStats (issues : List RawIssue) : ReviewStats :=
  issues.foldl
    (fun st i =>
      { st with
        by_severity := bumpKey st.by_severity (jsPropKey i.severity)
        by_category := bumpKey st.by_category (jsPropKey i.category) })
    { total_issues := issues.length
      by_severity := [("critical", 0), ("major", 0), ("minor", 0), ("info", 0)]
      by_category := [("security", 0), ("performance", 0), ("quality", 0),
                      ("maintainability", 0), ("all", 0)] }

/-- The private `validateAndEnrichResult` of `code-review.ts`. -/
def crValidateAndEnrichResult (parsed : RawParsed) (meta : ResultMeta) :
    CrReviewResult :=
  let issues := match parsed.issues with
    | some l => l
    | none => []
  let stats := crCalculateStats issues
  let sortedIssues := issues.insertionSort
    (fun a b => crRank a.severity ≤ crRank b.severity)
  { overall_score := match parsed.overall_score with
      | some q => if q != 0 then q else 5
      | none => 5
    summary := jsStringOf (jsOr parsed.summary (RVal.str "审查完成"))
    issues := sortedIssues
    highlights := (parsed.highlights).getD []
    stats := stats
    meta := { files_reviewed := meta.filesReviewed
              provider := meta.provider
              model := meta.model
              tokens_used := meta.tokensUsed
              duration_ms := meta.durationMs } }

/-! ### Task store (`src/tools/review/task-store.ts`) -/

def REVIEW_TASK_TTL_MS : ℤ := 1000 * 60 * 30

def REVIEW_TASK_POLL_AFTER_MS : ℤ := 2000

def REVIEW_TASK_MAX_COUNT : Nat := 100

def REVIEW_TASK_CLEANUP_INTERVAL_MS : ℤ := 1000 * 60 * 5

/-- A review task record (`ReviewTask`).  `status` is one of the strings
"pending" | "partial" | "completed" | "failed"; `providers` are the provider
name strings; `results`/`errors` are JS records keyed by provider. -/
structure ReviewTask where
  id : String
  status : String
  providers : List String
  startTime : ℤ
  filesCount : ℤ
  snapshotId : String
  outputMode : String
  outputDir : Option String := none
  askUserFeedback : Bool
  createdAt : ℤ
  updatedAt : ℤ
  results : List (String × ReviewResult)
  errors : List (String × String)
  combinedResult : Option ReviewResult := none
  report : Option String := none
  outputPath : Option String := none
deriving DecidableEq, Repr

/-- The task store `Map`, as an insertion-ordered association list keyed by
task id. -/
abbrev TaskStore : Type := List (String × ReviewTask)

/-- The `Map` invariant: keys are distinct. -/
def storeKeysNodup (store : TaskStore) : Prop :=
  (List.map Prod.fst store).Nodup

/-- Store get `getTask`: `reviewTaskStore.get(taskId)`.  Note: no cleanup runs here. -/
def getTask (store : TaskStore) (taskId : String) : Option ReviewTask :=
  recGet store taskId

/-- Store set `saveTask`: `reviewTaskStore.set(task.id, task)` (overwrite or append). -/
def saveTask (store : TaskStore) (task : ReviewTask) : TaskStore :=
  if (recGet store task.id).isSome then
    store.map (fun p => if p.1 = task.id then (p.1, task) else p)
  else store ++ [(task.id, task)]

/-- Store delete `deleteTask`. -/
def deleteTask (store : TaskStore) (taskId : String) : TaskStore :=
  store.filter (fun p => p.1 ≠ taskId)

/-- The comparator of the LRU sort: `(a, b) => a[1].updatedAt - b[1].updatedAt`. -/
def lruLE (a b : String × ReviewTask) : Prop :=
  a.2.updatedAt ≤ b.2.updatedAt

instance : DecidableRel lruLE := fun _ _ => inferInstanceAs (Decidable (_ ≤ _))

/-- The sweep `cleanupReviewTasks` (lines 99-119): delete every task with
`now - updatedAt > TTL`; then, if more than `REVIEW_TASK_MAX_COUNT` remain,
sort ascending by `updatedAt` (JS sort is stable) and delete the first
`size - MAX` task ids. -/
def cleanupReviewTasks (store : TaskStore) (now : ℤ) : TaskStore :=
  let afterExpiry := store.filter (fun p => ¬ now - p.2.updatedAt > REVIEW_TASK_TTL_MS)
  if afterExpiry.length > REVIEW_TASK_MAX_COUNT then
    let sorted := afterExpiry.insertionSort lruLE
    let toRemove := sorted.take (afterExpiry.length - REVIEW_TASK_MAX_COUNT)
    afterExpiry.filter (fun p => ¬ (toRemove.map Prod.fst).contains p.1)
  else afterExpiry

/-- The transition `updateTaskStatus` (lines 138-154): recompute `status` from the sizes of
`results`, `errors` and `providers`, and touch `updatedAt`. -/
def updateTaskStatus (task : ReviewTask) (now : ℤ) : ReviewTask :=
  let readyProviders := task.results.map Prod.fst
  let failedProviders := task.errors.map Prod.fst
  let finishedCount := readyProviders.length + failedProviders.length
  let status :=
    if finishedCount = 0 then "pending"
    else if finishedCount < task.providers.length then "partial"
    else if readyProviders.length = 0 then "failed"
    else "completed"
  { task with status := status, updatedAt := now }

/-! ### Status reporter (`buildTaskSummary`, `buildTaskStatusOutput`) -/

/-- The compact numeric summary (`CodeReviewTaskSummary`). -/
structure CodeReviewTaskSummary where
  overall_score : ℚ
  files_reviewed : ℤ
  total_issues : Nat
  duration_ms : ℤ
  provider : String
deriving DecidableEq, Repr

def buildTaskSummary (result : ReviewResult) : CodeReviewTaskSummary :=
  { overall_score := result.overall_score
    files_reviewed := result.meta.files_reviewed
    total_issues := result.stats.total_issues
    duration_ms := result.meta.duration_ms
    provider := result.meta.provider }

/-- The client-visible snapshot (`CodeReviewTaskStatusOutput`); absent JS
fields are `none`. -/
structure CodeReviewTaskStatusOutput where
  task_id : String
  status : String
  snapshot_id : String
  providers : List String
  ready_providers : List String
  pending_providers : List String
  failed_providers : Option (List String) := none
  provider_errors : Option (List (String × String)) := none
  summary : Option CodeReviewTaskSummary := none
  report : Option String := none
  provider_reports : Option (List (String × String)) := none
  output_path : Option String := none
  ask_user_feedback : Bool
  is_concurrent : Bool
  created_at : ℤ
  updated_at : ℤ
  poll_after_ms : Option ℤ := none
deriving DecidableEq, Repr

/-- A `Nat` counter lookup rendered for the report ("0" when absent). -/
def statCount (l : List (String × Nat)) (k : String) : Nat :=
  ((l.find? (fun p => p.1 = k)).map Prod.snd).getD 0

/-- Report builder `generateMarkdownReport` of `report-generator.ts`, with the
`new Date().toISOString()` read passed in as `nowIso`. -/
def generateMarkdownReport (result : ReviewResult) (nowIso : String) : String :=
  let base : List String :=
    ["# 代码审查报告", "",
     "## 总体评分：" ++ jsNumToString result.overall_score ++ "/10", "",
     result.summary, "",
     "## 统计概览", "",
     "- 审查文件数：" ++ toString result.meta.files_reviewed,
     "- 发现问题数：" ++ toString result.stats.total_issues,
     "- 耗时：" ++ toString result.meta.duration_ms ++ "ms",
     "- Provider：" ++ result.meta.provider ++ " (" ++ result.meta.model ++ ")"]
  let base := base ++
    (if result.meta.tokens_used.getD 0 ≠ 0 then
      ["- Token 使用：" ++ toString (result.meta.tokens_used.getD 0)]
     else []) ++ [""]
  let sevLine := fun (key : String) (label : String) =>
    if statCount result.stats.by_severity key > 0 then
      ["- [" ++ label ++ "] " ++ toString (statCount result.stats.by_severity key)]
    else []
  let base := base ++ sevLine "critical" "CRITICAL" ++ sevLine "major" "MAJOR" ++
    sevLine "minor" "MINOR" ++ sevLine "info" "INFO" ++ [""]
  let base := base ++
    (if result.highlights.length > 0 then
      ["## 代码亮点", ""] ++ result.highlights.map (fun h => "- " ++ h) ++ [""]
     else [])
  let issueBlock := fun (issue : ReviewIssue) =>
    ["### [" ++ (if issue.severity.isEmpty then "unknown" else issue.severity).toUpper
        ++ "] " ++ issue.title, "",
     "**文件**: `" ++ issue.file ++ "`" ++
       (match issue.line_start with
        | some q => if q ≠ 0 then
            " (L" ++ jsNumToString q ++
              (match issue.line_end with
               | some e => if e ≠ 0 then "-" ++ jsNumToString e else ""
               | none => "") ++ ")"
          else ""
        | none => ""),
     "**类别**: " ++ (if issue.category.isEmpty then "unknown" else issue.category) ++
       " | **严重程度**: " ++ (if issue.severity.isEmpty then "unknown" else issue.severity),
     "", issue.description] ++
    (match issue.code_snippet with
     | some c => if ¬ c.isEmpty then ["", "```", c, "```"] else []
     | none => []) ++
    (match issue.suggestion with
     | some s => if ¬ s.isEmpty then ["", "**建议**: " ++ s] else []
     | none => []) ++ [""]
  let base := base ++
    (if result.issues.length > 0 then
      ["## 问题详情", ""] ++ (result.issues.map issueBlock).flatten
     else [])
  let base := base ++ ["---", "*报告由 ProTools Code Review 生成 | " ++ nowIso ++ "*"]
  String.intercalate "\n" base

/-- Snapshot projection `buildTaskStatusOutput` of `task-store.ts` (lines 168-248). -/
def buildTaskStatusOutput (task : ReviewTask) (nowIso : String) :
    CodeReviewTaskStatusOutput :=
  let readyProviders := task.results.map Prod.fst
  let failedProviders := task.errors.map Prod.fst
  let pendingProviders := task.providers.filter
    (fun p => ¬ readyProviders.contains p ∧ ¬ failedProviders.contains p)
  if task.status = "pending" then
    { task_id := task.id
      status := "pending"
      snapshot_id := task.snapshotId
      providers := task.providers
      ready_providers := []
      pending_providers := task.providers
      ask_user_feedback := task.askUserFeedback
      is_concurrent := task.providers.length > 1
      created_at := task.createdAt
      updated_at := task.updatedAt
      poll_after_ms := some REVIEW_TASK_POLL_AFTER_MS }
  else
    let summaryResult : Option ReviewResult :=
      match task.combinedResult with
      | some c => some c
      | none =>
        match readyProviders with
        | [p] => recGet task.results p
        | _ => none
    let output : CodeReviewTaskStatusOutput :=
      { task_id := task.id
        status := task.status
        snapshot_id := task.snapshotId
        providers := task.providers
        ready_providers := readyProviders
        pending_providers := pendingProviders
        failed_providers := if failedProviders.length ≠ 0 then some failedProviders else none
        provider_errors := if failedProviders.length ≠ 0 then some task.errors else none
        summary := summaryResult.map buildTaskSummary
        output_path := task.outputPath
        ask_user_feedback := task.askUserFeedback
        is_concurrent := task.providers.length > 1
        created_at := task.createdAt
        updated_at := task.updatedAt
        poll_after_ms := if task.status = "partial"
          then some REVIEW_TASK_POLL_AFTER_MS else none }
    if readyProviders.length > 0 then
      if (task.status = "completed" ∨ task.status = "failed") ∧
          task.combinedResult.isSome ∧ task.report.isSome then
        { output with report := task.report }
      else
        match readyProviders with
        | [p] =>
          let rep := (recGet task.results p).map (fun r => generateMarkdownReport r nowIso)
          { output with report := rep }
        | _ =>
          if readyProviders.length > 1 then
            let reps := readyProviders.filterMap
              (fun p => (recGet task.results p).map
                (fun r => (p, generateMarkdownReport r nowIso)))
            { output with provider_reports := some reps }
          else output
    else output

/-! ### Concrete sample data used by witnesses and counterexamples -/

/-- A minimal canonical record with the given score, provider, duration and
token count. -/
def mkSampleResult (score : ℚ) (prov : String) (dur : ℤ) (tok : Option ℤ) :
    ReviewResult where
  overall_score := score
  summary := "s"
  issues := []
  highlights := []
  stats := calculateStats []
  meta := { files_reviewed := 1, provider := prov, model := "m",
            tokens_used := tok, duration_ms := dur }

def sampleResultA : ReviewResult := mkSampleResult 8 "openai" 5 none

def sampleResultB : ReviewResult := mkSampleResult 6 "gemini" 7 (some 3)

/-! ### Helper lemmas -/

theorem foldl_add_eq_sum {α M : Type} [AddCommMonoid M] (f : α → M)
    (l : List α) (init : M) :
    l.foldl (fun s r => s + f r) init = init + (l.map f).sum := by
  induction l generalizing init with
  | nil => simp
  | cons x xs ih => simp [ih, add_assoc]

/-- Claim C7: the combined overall score equals the rounded arithmetic mean of
the per-reviewer overall scores, for every non-empty list of canonical
records. -/
theorem c7_combined_score_is_rounded_mean (results : List ReviewResult)
    (filesCount startTime now : ℤ) (_h : results ≠ []) :
    (combineReviewResults results filesCount startTime now).overall_score =
      ((jsRound ((results.map (fun r => r.overall_score)).sum / results.length) : ℤ) : ℚ) := by
  simp [combineReviewResults, foldl_add_eq_sum]

/-- Witness for C7: scores {8, 6} combine to 7, and {9, 8, 8} combine to 8. -/
theorem c7_witness :
    (combineReviewResults [sampleResultA, sampleResultB] 2 0 100).overall_score = 7 ∧
    (combineReviewResults [mkSampleResult 9 "a" 1 none, mkSampleResult 8 "b" 1 none,
        mkSampleResult 8 "c" 1 none] 3 0 100).overall_score = 8 := by
  constructor
  · rw [c7_combined_score_is_rounded_mean _ 2 0 100 (by simp)]
    norm_num [sampleResultA, sampleResultB, mkSampleResult, jsRound]
  · rw [c7_combined_score_is_rounded_mean _ 3 0 100 (by simp)]
    norm_num [mkSampleResult, jsRound]

/-- Claim C9: the canonical record's overall score equals the raw score when
it is numeric and within [1,10], and equals 5 when the raw value is
non-numeric, missing, below 1, or above 10. -/
theorem c9_overall_score_normalization (parsed : RawParsed) (meta : ResultMeta) :
    (∀ q : ℚ, parsed.overall_score = some q → 1 ≤ q → q ≤ 10 →
      (validateAndEnrichResult parsed meta).overall_score = q) ∧
    (parsed.overall_score = none →
      (validateAndEnrichResult parsed meta).overall_score = 5) ∧
    (∀ q : ℚ, parsed.overall_score = some q → q < 1 ∨ q > 10 →
      (validateAndEnrichResult parsed meta).overall_score = 5) := by
  refine ⟨fun q hq h1 h10 => ?_, fun hq => ?_, fun q hq hout => ?_⟩ <;>
      simp only [validateAndEnrichResult, hq]
  · rw [if_neg (by push_neg; exact ⟨h1, h10⟩)]
  · rw [if_pos hout]

/-- Witness for C9: a raw score of 7 is kept; an out-of-range raw score of 15
and a missing score both become 5. -/
theorem c9_witness :
    (validateAndEnrichResult { overall_score := some 7 } ⟨1, "p", "m", none, 1⟩).overall_score = 7 ∧
    (validateAndEnrichResult { overall_score := some 15 } ⟨1, "p", "m", none, 1⟩).overall_score = 5 ∧
    (validateAndEnrichResult { overall_score := none } ⟨1, "p", "m", none, 1⟩).overall_score = 5 := by
  refine ⟨(c9_overall_score_normalization _ _).1 7 rfl (by norm_num) (by norm_num),
          (c9_overall_score_normalization _ _).2.2 15 rfl (by norm_num), ?_⟩
  exact (c9_overall_score_normalization { overall_score := none } ⟨1, "p", "m", none, 1⟩).2.1 rfl

/-- Counterexample for C8: the claim predicts a combined duration equal to the
sum of the per-reviewer durations (5 + 7 = 12 here), but the code stores the
wall-clock span `Date.now() - startTime` (100 here) instead. -/
theorem c8_counterexample :
    (combineReviewResults [sampleResultA, sampleResultB] 2 0 100).meta.duration_ms = 100 ∧
    sampleResultA.meta.duration_ms + sampleResultB.meta.duration_ms = 12 ∧
    (100 : ℤ) ≠ 12 := by
  refine ⟨rfl, rfl, by norm_num⟩

/-- Claim C8 as amended: in the merged record's metadata, token usage is the
sum of the per-reviewer `tokens_used` (a missing value counting as 0), while
`duration_ms` is the wall-clock span `now - startTime` measured at merge time,
not the sum of the per-reviewer durations. -/
theorem c8_amended_meta_aggregation (results : List ReviewResult)
    (filesCount startTime now : ℤ) (_h : results ≠ []) :
    (combineReviewResults results filesCount startTime now).meta.tokens_used =
      some ((results.map (fun r => r.meta.tokens_used.getD 0)).sum) ∧
    (combineReviewResults results filesCount startTime now).meta.duration_ms =
      now - startTime := by
  constructor
  · simp [combineReviewResults, foldl_add_eq_sum]
  · rfl

/-- Witness for C8 (amended): tokens none + some 3 sum to 3; the duration is
the merge-time span 100. -/
theorem c8_witness :
    (combineReviewResults [sampleResultA, sampleResultB] 2 0 100).meta.tokens_used = some 3 ∧
    (combineReviewResults [sampleResultA, sampleResultB] 2 0 100).meta.duration_ms = 100 := by
  have h := c8_amended_meta_aggregation [sampleResultA, sampleResultB] 2 0 100 (by simp)
  refine ⟨h.1.trans ?_, h.2⟩
  rfl

/-- The raw finding of the spec's repair example: severity "oops", otherwise
valid fields. -/
def oopsRawIssue : RawIssue :=
  { file := some (.str "a.ts"), severity := some (.str "oops"),
    category := some (.str "quality"), title := some (.str "t"),
    description := some (.str "d") }

/-- Claim C4: a raw finding passing strict validation is kept; otherwise it is
retried exactly once against the lenient repair, which coerces a missing or
invalid severity to "info", a missing or invalid category to "quality", and
defaults missing file/title/description text fields; a finding failing even
the repaired validation is dropped while the rest of the list is unaffected. -/
theorem c4_validation_repair :
    (∀ r i, safeParseIssue r = some i → validIssue r = some i) ∧
    (∀ r, safeParseIssue r = none → validIssue r = safeParseIssue (fixIssue r)) ∧
    (∀ r : RawIssue,
      (parseEnum severityValues r.severity = none →
        (fixIssue r).severity = some (RVal.str "info")) ∧
      (parseEnum categoryValues r.category = none →
        (fixIssue r).category = some (RVal.str "quality")) ∧
      (r.file = none → (fixIssue r).file = some (RVal.str "unknown")) ∧
      (r.title = none → (fixIssue r).title = some (RVal.str "未知问题")) ∧
      (r.description = none → (fixIssue r).description = some (RVal.str ""))) ∧
    (∀ r raws, validIssue r = none → validIssues (r :: raws) = validIssues raws) := by
  refine ⟨fun r i h => ?_, fun r h => ?_, fun r => ?_, fun r raws h => ?_⟩
  · simp [validIssue, h]
  · simp [validIssue, h]
  · refine ⟨fun h => ?_, fun h => ?_, fun h => ?_, fun h => ?_, fun h => ?_⟩ <;>
      simp only [fixIssue]
    · rcases hs : r.severity with _ | v
      · rfl
      · rcases v with s | q | b
        · rw [hs] at h
          simp only [parseEnum] at h
          split at h
          · exact absurd h (by simp)
          · simp_all
        · rfl
        · rfl
    · rcases hs : r.category with _ | v
      · rfl
      · rcases v with s | q | b
        · rw [hs] at h
          simp only [parseEnum] at h
          split at h
          · exact absurd h (by simp)
          · simp_all
        · rfl
        · rfl
    · simp [h, jsOr]
    · simp [h, jsOr]
    · simp [h, jsOr]
  · simp [validIssues, h]

/-- Witness for C4: the raw finding with severity "oops" fails strict
validation, is retried against the repair, and is retained with severity
coerced to "info" (category, file, title, description kept). -/
theorem c4_witness :
    safeParseIssue oopsRawIssue = none ∧
    validIssue oopsRawIssue = safeParseIssue (fixIssue oopsRawIssue) ∧
    validIssue oopsRawIssue = some
      { file := "a.ts", line_start := none, line_end := none, severity := "info",
        category := "quality", title := "t", description := "d",
        suggestion := none, code_snippet := none } := by
    refine ⟨by decide, c4_validation_repair.2.1 oopsRawIssue (by decide), by decide⟩

/-- A configurable sample task (two requested providers). -/
def mkSampleTask (id status : String) (updatedAt : ℤ)
    (results : List (String × ReviewResult)) (errors : List (String × String)) :
    ReviewTask where
  id := id
  status := status
  providers := ["openai", "gemini"]
  startTime := 0
  filesCount := 1
  snapshotId := "snap"
  outputMode := "inline"
  askUserFeedback := false
  createdAt := 0
  updatedAt := updatedAt
  results := results
  errors := errors

/-- Every entry surviving `cleanupReviewTasks` also survived the expiry
filter, hence is not older than the TTL. -/
theorem mem_cleanup_unexpired {store : TaskStore} {now : ℤ}
    {p : String × ReviewTask} (hp : p ∈ cleanupReviewTasks store now) :
    ¬ now - p.2.updatedAt > REVIEW_TASK_TTL_MS := by
  simp only [cleanupReviewTasks] at hp
  have hmem : p ∈ store.filter
      (fun p => ¬ now - p.2.updatedAt > REVIEW_TASK_TTL_MS) := by
    split at hp
    · exact List.mem_of_mem_filter hp
    · exact hp
  have := List.of_mem_filter hmem
  simpa using this

/-- Counterexample for C5: a task 31 minutes old is still returned verbatim by
`getTask` (no on-demand expiry runs inside any public store operation). -/
theorem c5_counterexample :
    getTask [("old", mkSampleTask "old" "completed" 0 [] [])] "old" =
      some (mkSampleTask "old" "completed" 0 [] []) ∧
    (1000 * 60 * 31 : ℤ) - (mkSampleTask "old" "completed" 0 [] []).updatedAt >
      REVIEW_TASK_TTL_MS := by
  exact ⟨rfl, by decide⟩

/-- Claim C5 as amended: `getTask` alone performs no expiry and can return a
task older than the TTL; only after `cleanupReviewTasks` has run (it is
invoked solely by the periodic timer) does a lookup never yield an expired
task. -/
theorem c5_amended_lookup_after_sweep (store : TaskStore) (now : ℤ)
    (taskId : String) (t : ReviewTask)
    (h : getTask (cleanupReviewTasks store now) taskId = some t) :
    ¬ now - t.updatedAt > REVIEW_TASK_TTL_MS := by
  unfold getTask recGet at h
  rcases Option.map_eq_some'.mp h with ⟨p, hfind, hsnd⟩
  have hmem := List.mem_of_find?_eq_some hfind
  have := mem_cleanup_unexpired hmem
  rwa [hsnd] at this

/-- Witness for C5 (amended): a fresh task survives the sweep and is
returned, and is indeed within the TTL. -/
theorem c5_witness :
    ¬ (100 : ℤ) - (mkSampleTask "fresh" "pending" 100 [] []).updatedAt >
      REVIEW_TASK_TTL_MS :=
  c5_amended_lookup_after_sweep [("fresh", mkSampleTask "fresh" "pending" 100 [] [])]
    100 "fresh" (mkSampleTask "fresh" "pending" 100 [] []) (by decide)

/-- The transition rule exactly as the spec writes it, with its guards read in
the order given (`s+f=0` first, so an empty provider list stays "pending"). -/
def claimStatus (s f n : Nat) : String :=
  if s + f = 0 then "pending"
  else if 0 < s + f ∧ s + f < n then "partial"
  else if s + f = n ∧ 0 < s then "completed"
  else "failed"

/-- Claim C1: for every task whose results and errors maps are disjoint and
whose key sets are subsets of the requested provider list, `updateTaskStatus`
sets `status` exactly per the spec's transition rule over
`(s, f, n) = (|results|, |errors|, |providers|)`. -/
theorem c1_update_task_status (task : ReviewTask) (now : ℤ)
    (hres : (task.results.map Prod.fst).Nodup)
    (herr : (task.errors.map Prod.fst).Nodup)
    (hdisj : ∀ k ∈ task.results.map Prod.fst, k ∉ task.errors.map Prod.fst)
    (hsubr : task.results.map Prod.fst ⊆ task.providers)
    (hsube : task.errors.map Prod.fst ⊆ task.providers) :
    (updateTaskStatus task now).status =
      claimStatus task.results.length task.errors.length task.providers.length := by
  have hlen : task.results.length + task.errors.length ≤ task.providers.length := by
    have hnodup : (task.results.map Prod.fst ++ task.errors.map Prod.fst).Nodup := by
      rw [List.nodup_append]
      exact ⟨hres, herr, hdisj⟩
    have hsub : task.results.map Prod.fst ++ task.errors.map Prod.fst ⊆ task.providers := by
      intro a ha
      rcases List.mem_append.mp ha with h | h
      · exact hsubr h
      · exact hsube h
    have := (List.subperm_of_subset hnodup hsub).length_le
    simpa using this
  simp only [updateTaskStatus, claimStatus, List.length_map]
  split_ifs <;> first | rfl | omega

/-- Witness for C1: one success out of two requested providers yields
"partial". -/
theorem c1_witness :
    (updateTaskStatus
      (mkSampleTask "t" "pending" 0 [("openai", sampleResultA)] []) 42).status =
      claimStatus 1 0 2 := by
  exact c1_update_task_status _ 42 (by decide) (by decide) (by decide)
    (by intro a ha; simp [mkSampleTask] at ha ⊢; exact Or.inl ha)
    (by intro a ha; simp [mkSampleTask] at ha)

/-- Counterexample for C6: a task with two successful reviewers but no
combined result yet (finalization pending) gets NO numeric summary in its
snapshot, although the claim promises one whenever at least one reviewer
succeeded. -/
theorem c6_counterexample :
    (mkSampleTask "t1" "completed" 0
      [("openai", sampleResultA), ("gemini", sampleResultB)] []).results ≠ [] ∧
    (buildTaskStatusOutput
      (mkSampleTask "t1" "completed" 0
        [("openai", sampleResultA), ("gemini", sampleResultB)] []) "T").summary = none := by
  exact ⟨by decide, rfl⟩

/-- Claim C6 as amended: for a task not in "pending" status, the snapshot
carries the compact numeric summary exactly when a combined result exists or
exactly one reviewer is ready; with two or more ready reviewers and no
combined result the summary is absent and the snapshot carries the
per-reviewer report map instead. -/
theorem c6_amended_summary_projection (task : ReviewTask) (nowIso : String)
    (hs : task.status ≠ "pending") :
    (∀ c, task.combinedResult = some c →
      (buildTaskStatusOutput task nowIso).summary = some (buildTaskSummary c)) ∧
    (∀ p r, task.combinedResult = none → task.results = [(p, r)] →
      (buildTaskStatusOutput task nowIso).summary = some (buildTaskSummary r)) ∧
    (task.combinedResult = none → 2 ≤ task.results.length →
      (buildTaskStatusOutput task nowIso).summary = none ∧
      (buildTaskStatusOutput task nowIso).provider_reports.isSome) := by
  refine ⟨fun c hc => ?_, fun p r hc hr => ?_, fun hc hlen => ?_⟩
  · simp only [buildTaskStatusOutput, hc, if_neg hs]
    split_ifs <;> (try split) <;> simp
  · simp only [buildTaskStatusOutput, hc, hr, if_neg hs, List.map_cons, List.map_nil]
    split_ifs <;> simp [recGet]
  · rcases hres : task.results with _ | ⟨a, tl⟩
    · rw [hres] at hlen; simp at hlen
    rcases tl with _ | ⟨b, rest⟩
    · rw [hres] at hlen; simp at hlen
    constructor <;>
      · simp only [buildTaskStatusOutput, hc, hres, if_neg hs, List.map_cons]
        split_ifs <;> simp_all

/-- The store contents after the expiry pass of `cleanupReviewTasks`. -/
def expirySurvivors (store : TaskStore) (now : ℤ) : TaskStore :=
  store.filter (fun p => ¬ now - p.2.updatedAt > REVIEW_TASK_TTL_MS)

theorem cleanup_eq (store : TaskStore) (now : ℤ) :
    cleanupReviewTasks store now =
      if (expirySurvivors store now).length > REVIEW_TASK_MAX_COUNT then
        (expirySurvivors store now).filter (fun p =>
          ¬ ((((expirySurvivors store now).insertionSort lruLE).take
              ((expirySurvivors store now).length - REVIEW_TASK_MAX_COUNT)).map
              Prod.fst).contains p.1)
      else expirySurvivors store now := rfl

instance : IsTotal (String × ReviewTask) lruLE :=
  ⟨fun a b => Int.le_total a.2.updatedAt b.2.updatedAt⟩

instance : IsTrans (String × ReviewTask) lruLE :=
  ⟨fun _ _ _ h1 h2 => le_trans h1 h2⟩

/-- In the over-capacity branch, the cleaned store is a permutation of the
upper part (by `updatedAt`) of the stable sort of the survivors. -/
theorem cleanup_overcap_perm (store : TaskStore) (now : ℤ)
    (h : storeKeysNodup store)
    (hover : (expirySurvivors store now).length > REVIEW_TASK_MAX_COUNT) :
    (cleanupReviewTasks store now).Perm
      (((expirySurvivors store now).insertionSort lruLE).drop
        ((expirySurvivors store now).length - REVIEW_TASK_MAX_COUNT)) := by
  set S := expirySurvivors store now with hS
  set k := S.length - REVIEW_TASK_MAX_COUNT with hk
  set sorted := S.insertionSort lruLE with hsorted
  set T := sorted.take k with hT
  set D := sorted.drop k with hD
  have hperm : sorted.Perm S := List.perm_insertionSort lruLE S
  have hSnodup : (S.map Prod.fst).Nodup :=
    h.sublist ((List.filter_sublist store).map Prod.fst)
  have hsortednodup : (sorted.map Prod.fst).Nodup :=
    ((hperm.map Prod.fst).nodup_iff).mpr hSnodup
  have hTD : T ++ D = sorted := List.take_append_drop k sorted
  have hdisj : ∀ a ∈ T.map Prod.fst, a ∉ D.map Prod.fst := by
    have hnd : ((T.map Prod.fst) ++ (D.map Prod.fst)).Nodup := by
      rw [← List.map_append, hTD]; exact hsortednodup
    exact (List.nodup_append.mp hnd).2.2
  have hkeepD : ∀ p ∈ D, ((T.map Prod.fst).contains p.1) = false := by
    intro p hp
    rcases hcontains : (T.map Prod.fst).contains p.1
    · rfl
    · exact absurd (List.mem_map_of_mem Prod.fst hp)
        (hdisj _ (List.elem_iff.mp hcontains))
  have hdropT : ∀ p ∈ T, ((T.map Prod.fst).contains p.1) = true :=
    fun p hp => List.elem_iff.mpr (List.mem_map_of_mem Prod.fst hp)
  have hout : cleanupReviewTasks store now =
      S.filter (fun p => ¬ (T.map Prod.fst).contains p.1) := by
    rw [cleanup_eq store now, if_pos hover]
  rw [hout]
  have hTfil : T.filter (fun p => ¬ (T.map Prod.fst).contains p.1) = [] :=
    List.filter_eq_nil_iff.mpr
      (by intro p hp; simp only [hdropT p hp]; simp)
  have hDfil : D.filter (fun p => ¬ (T.map Prod.fst).contains p.1) = D :=
    List.filter_eq_self.mpr
      (by intro p hp; simp only [hkeepD p hp]; simp)
  have hstep : (S.filter (fun p => ¬ (T.map Prod.fst).contains p.1)).Perm
      ((T ++ D).filter (fun p => ¬ (T.map Prod.fst).contains p.1)) := by
    refine List.Perm.filter _ ?_
    rw [hTD]; exact hperm.symm
  refine hstep.trans ?_
  rw [List.filter_append, hTfil, hDfil, List.nil_append]

/-- Claim C2: after `cleanupReviewTasks` no task older than the 30-minute TTL
remains; every kept entry survived the expiry pass; the resulting size is
`min(survivors, 100)` (so never above the 100-task cap); and any surviving
task that was evicted for capacity has an `updatedAt` no larger than that of
every kept task (least-recently-updated eviction). -/
theorem c2_cleanup_ttl_and_cap (store : TaskStore) (now : ℤ)
    (h : storeKeysNodup store) :
    (∀ p ∈ cleanupReviewTasks store now, ¬ now - p.2.updatedAt > REVIEW_TASK_TTL_MS) ∧
    (∀ p ∈ cleanupReviewTasks store now, p ∈ expirySurvivors store now) ∧
    (cleanupReviewTasks store now).length =
      min (expirySurvivors store now).length REVIEW_TASK_MAX_COUNT ∧
    (∀ p ∈ expirySurvivors store now, p ∉ cleanupReviewTasks store now →
      ∀ q ∈ cleanupReviewTasks store now, p.2.updatedAt ≤ q.2.updatedAt) := by
  by_cases hover : (expirySurvivors store now).length > REVIEW_TASK_MAX_COUNT
  · have hperm := cleanup_overcap_perm store now h hover
    have hsortlen : ((expirySurvivors store now).insertionSort lruLE).length =
        (expirySurvivors store now).length :=
      (List.perm_insertionSort lruLE (expirySurvivors store now)).length_eq
    refine ⟨fun p hp => mem_cleanup_unexpired hp, ?_, ?_, ?_⟩
    · intro p hp
      have hpD := hperm.mem_iff.mp hp
      exact (List.perm_insertionSort lruLE (expirySurvivors store now)).mem_iff.mp
        (List.mem_of_mem_drop hpD)
    · rw [hperm.length_eq, List.length_drop, hsortlen]
      omega
    · intro p hpS hpOut q hqOut
      have hq := hperm.mem_iff.mp hqOut
      have hpsorted : p ∈
          ((expirySurvivors store now).insertionSort lruLE).take
            ((expirySurvivors store now).length - REVIEW_TASK_MAX_COUNT) ++
          ((expirySurvivors store now).insertionSort lruLE).drop
            ((expirySurvivors store now).length - REVIEW_TASK_MAX_COUNT) := by
        rw [List.take_append_drop]
        exact (List.perm_insertionSort lruLE (expirySurvivors store now)).mem_iff.mpr hpS
      have hPW : List.Pairwise lruLE
          (((expirySurvivors store now).insertionSort lruLE).take
            ((expirySurvivors store now).length - REVIEW_TASK_MAX_COUNT) ++
          ((expirySurvivors store now).insertionSort lruLE).drop
            ((expirySurvivors store now).length - REVIEW_TASK_MAX_COUNT)) := by
        rw [List.take_append_drop]
        exact List.sorted_insertionSort lruLE (expirySurvivors store now)
      rcases List.mem_append.mp hpsorted with hpT | hpD
      · exact (List.pairwise_append.mp hPW).2.2 p hpT q hq
      · exact absurd (hperm.mem_iff.mpr hpD) hpOut
  · have hout : cleanupReviewTasks store now = expirySurvivors store now := by
      rw [cleanup_eq store now, if_neg hover]
    refine ⟨fun p hp => mem_cleanup_unexpired hp, ?_, ?_, ?_⟩
    · intro p hp; rwa [hout] at hp
    · rw [hout]; omega
    · intro p hpS hpOut
      rw [hout] at hpOut
      exact absurd hpS hpOut

/-- Witness for C2: a store with one expired and one fresh task where the
sweep removes exactly the expired one. -/
theorem c2_witness :
    (cleanupReviewTasks
      [("a", mkSampleTask "a" "completed" 0 [] []),
       ("b", mkSampleTask "b" "completed" 2000000 [] [])] 2000000).length =
      min (expirySurvivors
        [("a", mkSampleTask "a" "completed" 0 [] []),
         ("b", mkSampleTask "b" "completed" 2000000 [] [])] 2000000).length
        REVIEW_TASK_MAX_COUNT :=
  (c2_cleanup_ttl_and_cap _ 2000000
    (by show (List.map Prod.fst _).Nodup; decide)).2.2.1

/-! ### Dedup invariant for the merger (claim C3) -/

/-- Invariant of the dedup loop after processing the findings in `pre`:
every map entry is keyed by its issue's string key, keys are distinct, every
entry is the first occurrence of its key in `pre`, and every processed key is
represented. -/
def dedupInv (pre : List ReviewIssue) (m : List (String × ReviewIssue)) : Prop :=
  (∀ p ∈ m, p.1 = issueKey p.2) ∧
  (m.map Prod.fst).Nodup ∧
  (∀ p ∈ m, pre.find? (fun i => issueKey i = p.1) = some p.2) ∧
  (∀ i ∈ pre, ∃ p ∈ m, p.1 = issueKey i)

theorem insertIssue_inv {pre : List ReviewIssue} {m : List (String × ReviewIssue)}
    (hinv : dedupInv pre m) (i : ReviewIssue) :
    dedupInv (pre ++ [i]) (insertIssue m i) := by
  obtain ⟨h1, h2, h3, h4⟩ := hinv
  unfold insertIssue
  by_cases hpresent : (recGet m (issueKey i)).isSome
  · rw [if_pos hpresent]
    refine ⟨h1, h2, ?_, ?_⟩
    · intro p hp
      rw [List.find?_append, h3 p hp]; rfl
    · intro j hj
      rcases List.mem_append.mp hj with hj | hj
      · exact h4 j hj
      · have hj : j = i := by simpa using hj
        subst hj
        unfold recGet at hpresent
        rcases hfind : List.find? (fun p => decide (p.1 = issueKey j)) m with _ | p
        · rw [hfind] at hpresent; simp at hpresent
        · have hpm := List.mem_of_find?_eq_some hfind
          have hpk : p.1 = issueKey j := by simpa using List.find?_some hfind
          exact ⟨p, hpm, hpk⟩
  · rw [if_neg hpresent]
    have habsent : ∀ q ∈ m, q.1 ≠ issueKey i := by
      intro q hq
      unfold recGet at hpresent
      rcases hfind : List.find? (fun p => decide (p.1 = issueKey i)) m with _ | p
      · have := List.find?_eq_none.mp hfind q hq
        simpa using this
      · rw [hfind] at hpresent; simp at hpresent
    have hnofirst : pre.find? (fun j => issueKey j = issueKey i) = none := by
      rcases hfind : pre.find? (fun j => issueKey j = issueKey i) with _ | j
      · rfl
      · exfalso
        have hjmem := List.mem_of_find?_eq_some hfind
        have hjkey : issueKey j = issueKey i := by
          simpa using List.find?_some hfind
        rcases h4 j hjmem with ⟨p, hpm, hpk⟩
        exact habsent p hpm (hpk.trans hjkey)
    refine ⟨?_, ?_, ?_, ?_⟩
    · intro p hp
      rcases List.mem_append.mp hp with hp | hp
      · exact h1 p hp
      · have : p = (issueKey i, i) := by simpa using hp
        subst this; rfl
    · rw [List.map_append, List.nodup_append]
      refine ⟨h2, by simp, ?_⟩
      intro a ha
      simp only [List.map_cons, List.map_nil, List.mem_singleton]
      rcases List.mem_map.mp ha with ⟨q, hqm, hqa⟩
      intro heq
      exact habsent q hqm (by rw [hqa, heq])
    · intro p hp
      rcases List.mem_append.mp hp with hp | hp
      · rw [List.find?_append, h3 p hp]; rfl
      · have : p = (issueKey i, i) := by simpa using hp
        subst this
        rw [List.find?_append, hnofirst]
        simp
    · intro j hj
      rcases List.mem_append.mp hj with hj | hj
      · rcases h4 j hj with ⟨p, hpm, hpk⟩
        exact ⟨p, List.mem_append.mpr (Or.inl hpm), hpk⟩
      · have : j = i := by simpa using hj
        subst this
        exact ⟨(issueKey j, j), List.mem_append.mpr (Or.inr (by simp)), rfl⟩

theorem foldl_insertIssue_inv (l : List ReviewIssue) :
    ∀ (pre : List ReviewIssue) (m : List (String × ReviewIssue)),
      dedupInv pre m → dedupInv (pre ++ l) (l.foldl insertIssue m) := by
  induction l with
  | nil => intro pre m h; simpa using h
  | cons x xs ih =>
    intro pre m h
    have hx := insertIssue_inv h x
    have := ih (pre ++ [x]) (insertIssue m x) hx
    simpa using this

theorem dedupInv_nil : dedupInv [] [] := by
  refine ⟨by simp, by simp, by simp, by simp⟩

theorem dedupIssueMap_eq_flat (results : List ReviewResult) :
    dedupIssueMap results =
      ((results.map ReviewResult.issues).flatten).foldl insertIssue [] := by
  rw [List.foldl_flatten]
  unfold dedupIssueMap
  rw [List.foldl_map]

theorem dedupIssueMap_inv (results : List ReviewResult) :
    dedupInv ((results.map ReviewResult.issues).flatten) (dedupIssueMap results) := by
  rw [dedupIssueMap_eq_flat]
  have := foldl_insertIssue_inv ((results.map ReviewResult.issues).flatten) [] [] dedupInv_nil
  simpa using this

/-- Claim C3 as amended: findings are deduplicated by the untyped string key
`file + ":" + (line_start ?? 0) + ":" + title` (not by the composite triple:
distinct triples whose renderings collide are conflated).  Per string key
exactly one finding survives, namely the first occurrence in reviewer
iteration order, and every input key is represented. -/
theorem c3_amended_dedup_by_string_key (results : List ReviewResult)
    (filesCount startTime now : ℤ) :
    (((combineReviewResults results filesCount startTime now).issues.map issueKey).Nodup) ∧
    (∀ j ∈ (combineReviewResults results filesCount startTime now).issues,
      ((results.map ReviewResult.issues).flatten).find?
        (fun i => issueKey i = issueKey j) = some j) ∧
    (∀ i ∈ (results.map ReviewResult.issues).flatten,
      ∃ j ∈ (combineReviewResults results filesCount startTime now).issues,
        issueKey j = issueKey i) := by
  obtain ⟨h1, h2, h3, h4⟩ := dedupIssueMap_inv results
  have hiss : (combineReviewResults results filesCount startTime now).issues =
      sortIssuesBySeverity ((dedupIssueMap results).map Prod.snd) := rfl
  have hperm : (sortIssuesBySeverity ((dedupIssueMap results).map Prod.snd)).Perm
      ((dedupIssueMap results).map Prod.snd) :=
    List.perm_insertionSort _ _
  refine ⟨?_, ?_, ?_⟩
  · rw [hiss]
    have hmapperm := hperm.map issueKey
    rw [hmapperm.nodup_iff, List.map_map]
    have : (dedupIssueMap results).map (issueKey ∘ Prod.snd) =
        (dedupIssueMap results).map Prod.fst := by
      apply List.map_eq_map_iff.mpr
      intro p hp
      exact (h1 p hp).symm
    rw [this]
    exact h2
  · intro j hj
    rw [hiss] at hj
    have hj2 := hperm.mem_iff.mp hj
    rcases List.mem_map.mp hj2 with ⟨p, hpm, hpj⟩
    have := h3 p hpm
    rw [h1 p hpm, hpj] at this
    rw [this]
  · intro i hi
    rcases h4 i hi with ⟨p, hpm, hpk⟩
    refine ⟨p.2, ?_, by rw [← hpk, h1 p hpm]⟩
    rw [hiss]
    exact hperm.mem_iff.mpr (List.mem_map_of_mem Prod.snd hpm)

/-- The composite key as the claim states it: the triple
(file, starting line or 0 when absent, title). -/
def tripleKey (i : ReviewIssue) : String × ℚ × String :=
  (i.file, i.line_start.getD 0, i.title)

def collideIssueA : ReviewIssue :=
  { file := "a", line_start := some 1, line_end := none, severity := "major",
    category := "quality", title := "2:t", description := "d",
    suggestion := none, code_snippet := none }

def collideIssueB : ReviewIssue :=
  { file := "a:1", line_start := some 2, line_end := none, severity := "minor",
    category := "quality", title := "t", description := "d",
    suggestion := none, code_snippet := none }

/-- Counterexample for C3: two findings from different reviewers with
distinct composite keys, ("a", 1, "2:t") and ("a:1", 2, "t"), render to the
same string key "a:1:2:t", so the merger keeps only the first — the claim's
"exactly one finding per distinct key" fails. -/
theorem c3_counterexample :
    tripleKey collideIssueA ≠ tripleKey collideIssueB ∧
    collideIssueB ∈ ({ sampleResultB with issues := [collideIssueB] } : ReviewResult).issues ∧
    (combineReviewResults
      [{ sampleResultA with issues := [collideIssueA] },
       { sampleResultB with issues := [collideIssueB] }] 2 0 100).issues =
      [collideIssueA] := by
  refine ⟨by decide, by decide, by decide⟩

def dupIssue : ReviewIssue :=
  { file := "a.ts", line_start := some 10, line_end := none, severity := "major",
    category := "quality", title := "null deref", description := "d",
    suggestion := none, code_snippet := none }

/-- Witness for C3 (amended): two reviewers reporting the identical finding
(file "a.ts", line 10, title "null deref") yield exactly one finding, and it
carries the shared key. -/
theorem c3_witness :
    (combineReviewResults
      [{ sampleResultA with issues := [dupIssue] },
       { sampleResultB with issues := [dupIssue] }] 2 0 100).issues = [dupIssue] ∧
    (∃ j ∈ (combineReviewResults
      [{ sampleResultA with issues := [dupIssue] },
       { sampleResultB with issues := [dupIssue] }] 2 0 100).issues,
        issueKey j = issueKey dupIssue) := by
  refine ⟨by decide, ?_⟩
  exact (c3_amended_dedup_by_string_key
    [{ sampleResultA with issues := [dupIssue] },
     { sampleResultB with issues := [dupIssue] }] 2 0 100).2.2 dupIssue (by decide)

/-! ### Agreement lemmas between the two validators (claim C10) -/

theorem parseEnum_inv {vs : List String} {v : Option RVal} {s : String}
    (h : parseEnum vs v = some s) : v = some (RVal.str s) ∧ s ∈ vs := by
  rcases v with _ | val
  · simp [parseEnum] at h
  rcases val with t | q | b
  · simp only [parseEnum] at h
    split at h
    · simp only [Option.some.injEq] at h
      subst h
      exact ⟨rfl, by assumption⟩
    · simp at h
  · simp [parseEnum] at h
  · simp [parseEnum] at h

theorem safeParse_fields {r : RawIssue} {i : ReviewIssue}
    (h : safeParseIssue r = some i) :
    r.severity = some (RVal.str i.severity) ∧ i.severity ∈ severityValues ∧
    r.category = some (RVal.str i.category) ∧ i.category ∈ categoryValues := by
  simp only [safeParseIssue, Option.bind_eq_bind, Option.bind_eq_some, Option.pure_def,
    Option.some.injEq] at h
  obtain ⟨f, hf, ls, hls, le, hle, sv, hsv, cat, hcat, ti, hti, de, hde, su, hsu,
    cs, hcs, hi⟩ := h
  subst hi
  obtain ⟨hsv1, hsv2⟩ := parseEnum_inv hsv
  obtain ⟨hcat1, hcat2⟩ := parseEnum_inv hcat
  exact ⟨hsv1, hsv2, hcat1, hcat2⟩

theorem crRank_eq_sevRank {r : RawIssue} {i : ReviewIssue}
    (h : safeParseIssue r = some i) : crRank r.severity = sevRank i.severity := by
  rw [(safeParse_fields h).1]
  rfl

theorem jsPropKey_severity {r : RawIssue} {i : ReviewIssue}
    (h : safeParseIssue r = some i) : jsPropKey r.severity = i.severity := by
  rw [(safeParse_fields h).1]
  rfl

theorem jsPropKey_category {r : RawIssue} {i : ReviewIssue}
    (h : safeParseIssue r = some i) : jsPropKey r.category = i.category := by
  rw [(safeParse_fields h).2.2.1]
  rfl

theorem category_ne_all {r : RawIssue} {i : ReviewIssue}
    (h : safeParseIssue r = some i) : i.category ≠ "all" := by
  have := (safeParse_fields h).2.2.2
  intro heq
  rw [heq] at this
  simp [categoryValues] at this

theorem filterMap_orderedInsert_comm {r : RawIssue} {i : ReviewIssue}
    (hr : safeParseIssue r = some i) (l : List RawIssue)
    (hl : ∀ x ∈ l, (safeParseIssue x).isSome) :
    (l.orderedInsert (fun a b => crRank a.severity ≤ crRank b.severity) r).filterMap
        safeParseIssue =
      (l.filterMap safeParseIssue).orderedInsert
        (fun a b => sevRank a.severity ≤ sevRank b.severity) i := by
  induction l with
  | nil => simp [List.orderedInsert, hr]
  | cons b t ih =>
    obtain ⟨j, hj⟩ := Option.isSome_iff_exists.mp (hl b (List.mem_cons_self b t))
    have hcmp : crRank r.severity ≤ crRank b.severity ↔
        sevRank i.severity ≤ sevRank j.severity := by
      rw [crRank_eq_sevRank hr, crRank_eq_sevRank hj]
    rw [List.filterMap_cons_some hj]
    by_cases hc : sevRank i.severity ≤ sevRank j.severity
    · simp only [List.orderedInsert, if_pos (hcmp.mpr hc), if_pos hc]
      rw [List.filterMap_cons_some hr, List.filterMap_cons_some hj]
    · have hcr : ¬ crRank r.severity ≤ crRank b.severity := fun hx => hc (hcmp.mp hx)
      simp only [List.orderedInsert, if_neg hcr, if_neg hc]
      rw [List.filterMap_cons_some hj]
      rw [ih (fun x hx => hl x (List.mem_cons_of_mem b hx))]

theorem filterMap_insertionSort_comm (l : List RawIssue)
    (hl : ∀ x ∈ l, (safeParseIssue x).isSome) :
    (l.insertionSort (fun a b => crRank a.severity ≤ crRank b.severity)).filterMap
        safeParseIssue =
      (l.filterMap safeParseIssue).insertionSort
        (fun a b => sevRank a.severity ≤ sevRank b.severity) := by
  induction l with
  | nil => rfl
  | cons x xs ih =>
    obtain ⟨i, hi⟩ := Option.isSome_iff_exists.mp (hl x (List.mem_cons_self x xs))
    have hxs : ∀ y ∈ xs, (safeParseIssue y).isSome :=
      fun y hy => hl y (List.mem_cons_of_mem x hy)
    have hsortmem : ∀ y ∈ xs.insertionSort
        (fun a b => crRank a.severity ≤ crRank b.severity), (safeParseIssue y).isSome :=
      fun y hy => hxs y ((List.mem_insertionSort _).mp hy)
    simp only [List.insertionSort]
    rw [filterMap_orderedInsert_comm hi _ hsortmem, ih hxs,
      List.filterMap_cons_some hi]
    simp only [List.insertionSort]

theorem validIssues_of_valid (l : List RawIssue)
    (hl : ∀ x ∈ l, (safeParseIssue x).isSome) :
    validIssues l = l.filterMap safeParseIssue := by
  unfold validIssues
  apply List.filterMap_congr
  intro x hx
  obtain ⟨i, hi⟩ := Option.isSome_iff_exists.mp (hl x hx)
  simp [validIssue, hi]

theorem filterMap_length_of_valid (l : List RawIssue)
    (hl : ∀ x ∈ l, (safeParseIssue x).isSome) :
    (l.filterMap safeParseIssue).length = l.length := by
  induction l with
  | nil => rfl
  | cons x xs ih =>
    obtain ⟨i, hi⟩ := Option.isSome_iff_exists.mp (hl x (List.mem_cons_self x xs))
    rw [List.filterMap_cons_some hi, List.length_cons, List.length_cons,
      ih (fun y hy => hl y (List.mem_cons_of_mem x hy))]

theorem statsFold_split (issues : List ReviewIssue) (st : ReviewStats) :
    issues.foldl (fun st i =>
        { st with by_severity := bumpKey st.by_severity i.severity,
                  by_category := bumpKey st.by_category i.category }) st =
      { total_issues := st.total_issues,
        by_severity := issues.foldl (fun bs i => bumpKey bs i.severity) st.by_severity,
        by_category := issues.foldl (fun bc i => bumpKey bc i.category) st.by_category } := by
  induction issues generalizing st with
  | nil => rfl
  | cons x xs ih => rw [List.foldl_cons, List.foldl_cons, List.foldl_cons, ih]

theorem crStatsFold_split (issues : List RawIssue) (st : ReviewStats) :
    issues.foldl (fun st i =>
        { st with by_severity := bumpKey st.by_severity (jsPropKey i.severity),
                  by_category := bumpKey st.by_category (jsPropKey i.category) }) st =
      { total_issues := st.total_issues,
        by_severity := issues.foldl
          (fun bs i => bumpKey bs (jsPropKey i.severity)) st.by_severity,
        by_category := issues.foldl
          (fun bc i => bumpKey bc (jsPropKey i.category)) st.by_category } := by
  induction issues generalizing st with
  | nil => rfl
  | cons x xs ih => rw [List.foldl_cons, List.foldl_cons, List.foldl_cons, ih]

theorem fold_bump_sev_agree (l : List RawIssue)
    (hl : ∀ x ∈ l, (safeParseIssue x).isSome) :
    ∀ acc, l.foldl (fun a x => bumpKey a (jsPropKey x.severity)) acc =
      (l.filterMap safeParseIssue).foldl (fun a i => bumpKey a i.severity) acc := by
  induction l with
  | nil => intro acc; rfl
  | cons x xs ih =>
    intro acc
    obtain ⟨i, hi⟩ := Option.isSome_iff_exists.mp (hl x (List.mem_cons_self x xs))
    rw [List.foldl_cons, List.filterMap_cons_some hi, List.foldl_cons,
      jsPropKey_severity hi]
    exact ih (fun y hy => hl y (List.mem_cons_of_mem x hy)) _

theorem bumpKey_append_all (bc : List (String × Nat)) (k : String) (hk : k ≠ "all") :
    bumpKey (bc ++ [("all", 0)]) k = bumpKey bc k ++ [("all", 0)] := by
  have hallk : ¬ ("all" = k) := fun h => hk h.symm
  unfold bumpKey
  by_cases hany : bc.any (fun p => p.1 = k)
  · rw [if_pos, if_pos hany, List.map_append]
    · simp [hallk]
    · rw [List.any_append, hany, Bool.true_or]
  · rw [if_neg, if_neg hany]
    · rw [List.any_append]
      simp only [hany, Bool.false_or, List.any_cons, List.any_nil, Bool.or_false]
      simpa using hallk
  
theorem fold_bump_cat_agree (l : List RawIssue)
    (hl : ∀ x ∈ l, (safeParseIssue x).isSome) :
    ∀ acc, l.foldl (fun a x => bumpKey a (jsPropKey x.category)) (acc ++ [("all", 0)]) =
      (l.filterMap safeParseIssue).foldl
        (fun a i => bumpKey a i.category) acc ++ [("all", 0)] := by
  induction l with
  | nil => intro acc; rfl
  | cons x xs ih =>
    intro acc
    obtain ⟨i, hi⟩ := Option.isSome_iff_exists.mp (hl x (List.mem_cons_self x xs))
    rw [List.foldl_cons, List.filterMap_cons_some hi, List.foldl_cons,
      jsPropKey_category hi, bumpKey_append_all acc i.category (category_ne_all hi)]
    exact ih (fun y hy => hl y (List.mem_cons_of_mem x hy)) _

theorem stats_agree (l : List RawIssue)
    (hl : ∀ x ∈ l, (safeParseIssue x).isSome) :
    crCalculateStats l =
      { total_issues := (calculateStats (l.filterMap safeParseIssue)).total_issues,
        by_severity := (calculateStats (l.filterMap safeParseIssue)).by_severity,
        by_category := (calculateStats (l.filterMap safeParseIssue)).by_category
          ++ [("all", 0)] } := by
  unfold crCalculateStats calculateStats
  rw [crStatsFold_split, statsFold_split]
  have hcat := fold_bump_cat_agree l hl
    [("security", 0), ("performance", 0), ("quality", 0), ("maintainability", 0)]
  simp only [List.cons_append, List.nil_append] at hcat
  rw [hcat]
  rw [fold_bump_sev_agree l hl]
  rw [filterMap_length_of_valid l hl]

/-- Counterexample for C10: on the raw input `{ overall_score: 15 }` the
exported validator clamps the score to 5, while the private validator of
`code-review.ts` keeps 15 (its check is JS truthiness, not the [1,10]
range): the two functions are not extensionally equal. -/
theorem c10_counterexample :
    (validateAndEnrichResult { overall_score := some 15 }
      ⟨1, "p", "m", none, 1⟩).overall_score = 5 ∧
    (crValidateAndEnrichResult { overall_score := some 15 }
      ⟨1, "p", "m", none, 1⟩).overall_score = 15 := by
  constructor
  · simp [validateAndEnrichResult]
    norm_num
  · simp [crValidateAndEnrichResult]

/-- Claim C10 as amended: the two validators agree only on benign inputs and
only up to the private validator's extra "all" category key.  For every raw
input whose score is in [1,10] (or missing) and whose issues all pass strict
validation, both produce the same overall score, the same issues (the
private validator's raw issues parse elementwise to the exported one's
issues, in the same sorted order), the same issue count, the same severity
counts, and category stats that differ exactly by a trailing ("all", 0) key;
outside that domain they differ, e.g. on a score of 15. -/
theorem c10_amended_agreement (parsed : RawParsed) (meta : ResultMeta)
    (hscore : ∀ q : ℚ, parsed.overall_score = some q → 1 ≤ q ∧ q ≤ 10)
    (hvalid : ∀ l, parsed.issues = some l → ∀ r ∈ l, (safeParseIssue r).isSome) :
    (crValidateAndEnrichResult parsed meta).overall_score =
      (validateAndEnrichResult parsed meta).overall_score ∧
    (crValidateAndEnrichResult parsed meta).issues.filterMap safeParseIssue =
      (validateAndEnrichResult parsed meta).issues ∧
    (crValidateAndEnrichResult parsed meta).issues.length =
      (validateAndEnrichResult parsed meta).issues.length ∧
    (crValidateAndEnrichResult parsed meta).stats.total_issues =
      (validateAndEnrichResult parsed meta).stats.total_issues ∧
    (crValidateAndEnrichResult parsed meta).stats.by_severity =
      (validateAndEnrichResult parsed meta).stats.by_severity ∧
    (crValidateAndEnrichResult parsed meta).stats.by_category =
      (validateAndEnrichResult parsed meta).stats.by_category ++ [("all", 0)] ∧
    (crValidateAndEnrichResult parsed meta).meta =
      (validateAndEnrichResult parsed meta).meta := by
  have hiss : ∀ x ∈ (match parsed.issues with | some l => l | none => []),
      (safeParseIssue x).isSome := by
    rcases hpi : parsed.issues with _ | l
    · simp
    · simpa using hvalid l hpi
  refine ⟨?_, ?_, ?_, ?_, ?_, ?_, ?_⟩
  · rcases hq : parsed.overall_score with _ | q
    · simp [validateAndEnrichResult, crValidateAndEnrichResult, hq]
    · obtain ⟨h1, h10⟩ := hscore q hq
      simp only [validateAndEnrichResult, crValidateAndEnrichResult, hq]
      rw [if_pos (show (q != 0) = true by
            simp only [bne_iff_ne, ne_eq]
            intro h0; rw [h0] at h1; norm_num at h1),
        if_neg (by push_neg; exact ⟨h1, h10⟩)]
  · simp only [validateAndEnrichResult, crValidateAndEnrichResult,
      sortIssuesBySeverity]
    rw [filterMap_insertionSort_comm _ hiss, validIssues_of_valid _ hiss]
  · simp only [validateAndEnrichResult, crValidateAndEnrichResult,
      sortIssuesBySeverity, List.length_insertionSort]
    rw [validIssues_of_valid _ hiss, filterMap_length_of_valid _ hiss]
  · simp only [validateAndEnrichResult, crValidateAndEnrichResult]
    rw [stats_agree _ hiss, validIssues_of_valid _ hiss]
  · simp only [validateAndEnrichResult, crValidateAndEnrichResult]
    rw [stats_agree _ hiss, validIssues_of_valid _ hiss]
  · simp only [validateAndEnrichResult, crValidateAndEnrichResult]
    rw [stats_agree _ hiss, validIssues_of_valid _ hiss]
  · rfl

/-- A strictly valid raw issue used by the C10 witness. -/
def validRawIssue : RawIssue :=
  { file := some (.str "a.ts"), severity := some (.str "major"),
    category := some (.str "security"), title := some (.str "t"),
    description := some (.str "d") }

/-- Witness for C10 (amended): on a benign input the two validators agree on
score and issues, and the private stats carry the extra ("all", 0) key. -/
theorem c10_witness :
    (crValidateAndEnrichResult
        { overall_score := some 7, issues := some [validRawIssue] }
        ⟨1, "p", "m", none, 1⟩).overall_score =
      (validateAndEnrichResult
        { overall_score := some 7, issues := some [validRawIssue] }
        ⟨1, "p", "m", none, 1⟩).overall_score ∧
    (crValidateAndEnrichResult
        { overall_score := some 7, issues := some [validRawIssue] }
        ⟨1, "p", "m", none, 1⟩).stats.by_category =
      (validateAndEnrichResult
        { overall_score := some 7, issues := some [validRawIssue] }
        ⟨1, "p", "m", none, 1⟩).stats.by_category ++ [("all", 0)] := by
  have h := c10_amended_agreement
    { overall_score := some 7, issues := some [validRawIssue] }
    ⟨1, "p", "m", none, 1⟩
    (by intro q hq; simp at hq; subst hq; norm_num)
    (by intro l hl; simp at hl; subst hl; intro r hr; simp at hr; subst hr; decide)
  exact ⟨h.1, h.2.2.2.2.2.1⟩

/-- Witness for C6 (amended): once a combined result exists, the snapshot
carries its numeric summary. -/
theorem c6_witness :
    (buildTaskStatusOutput
      { mkSampleTask "t2" "completed" 0 [("openai", sampleResultA)] [] with
          combinedResult := some sampleResultB } "T").summary =
      some (buildTaskSummary sampleResultB) :=
  (c6_amended_summary_projection
    { mkSampleTask "t2" "completed" 0 [("openai", sampleResultA)] [] with
        combinedResult := some sampleResultB } "T" (by decide)).1 sampleResultB rfl
